import Mathlib

/-!
Verification of the borg-space repository-specification resolution engine and
tree renderer, shallowly embedded from the Python sources
(src/borg_space/config.py, src/borg_space/main.py, src/borg_space/trees.py).

Strings are modelled as lists of characters; Python exceptions are modelled as
an explicit error type threaded through Except; the metrics source (a local
file read or a remote command, config.py get_latest) is modelled as an oracle
supplied as a parameter.
-/

namespace BorgSpace

/-- Strings of the Python code, modelled as lists of characters. -/
abbrev Str := List Char

/-- Shorthand to write a concrete Str. -/
def sl (s : String) : Str := s.toList

/-- Python str.partition(c) for a single-character separator: split at the
first occurrence of c.  Returns (before, after); when c is absent the whole
input is the before part and after is empty, which is how
Repository.new (config.py:49-50) consumes the result. -/
def partitionChar (c : Char) : Str → Str × Str
  | [] => ([], [])
  | x :: xs =>
      if x = c then ([], xs)
      else
        let p := partitionChar c xs
        (x :: p.1, p.2)

/-- First character of a Python identifier (ASCII model of str.isidentifier). -/
def isIdentStart (c : Char) : Bool := c.isAlpha || c = '_'

/-- Subsequent character of a Python identifier. -/
def isIdentCont (c : Char) : Bool := c.isAlphanum || c = '_'

/-- Python str.isidentifier (ASCII model): nonempty, head is a letter or
underscore, rest are letters, digits or underscores. -/
def isIdentifier : Str → Bool
  | [] => false
  | x :: xs => isIdentStart x && xs.all isIdentCont

/-- The replacement a_name (config.py:180) applies before the identifier
check: dashes count as legal name characters. -/
def cleanChar (c : Char) : Char := if c = '-' then '0' else c

/-- Python exceptions relevant to the modelled code: inform.Error (err),
voluptuous.Invalid (invalid) and OSError (oserr).  The code defines no other
error kinds: in particular there is no CyclicGroup and no UnknownStyle
anywhere in the source. -/
inductive PyExc where
  | err : String → PyExc
  | invalid : String → PyExc
  | oserr : String → PyExc
deriving DecidableEq

/-- a_name from config.py:174-183: empty values pass through, otherwise the
value with dashes replaced must be an identifier, else voluptuous.Invalid. -/
def a_name (arg : Str) : Except PyExc Str :=
  if arg = [] then .ok arg
  else if isIdentifier (arg.map cleanChar) then .ok arg
  else .error (.invalid (String.mk arg ++ ": expected a name"))

/-- The per-repository metrics record built by get_latest
(config.py:112-123).  Sizes are byte counts, timestamps are modelled as
naturals; an absent key leaves the field none. -/
structure Metrics where
  size : Option Nat
  last_create : Option Nat
  last_prune : Option Nat
  last_compact : Option Nat
  last_squeeze : Option Nat
deriving DecidableEq

/-- The empty metrics dictionary (Python falsy). -/
def emptyMetrics : Metrics := ⟨none, none, none, none, none⟩

/-- The raw key-value document read from the metrics source
(emborg latest.nt file), before get_latest converts it. -/
structure RawDoc where
  repository_size : Option Nat
  create_last_run : Option Nat
  prune_last_run : Option Nat
  compact_last_run : Option Nat
deriving DecidableEq

/-- Conversion of the raw document performed by get_latest
(config.py:113-123): each recognized key present populates the corresponding
field; last_squeeze is the max of prune and compact when both are present. -/
def parseLatest (raw : RawDoc) : Metrics :=
  let lp := raw.prune_last_run
  let lc := raw.compact_last_run
  let lsq := match lp, lc with
    | some p, some c => some (max p c)
    | _, _ => none
  ⟨raw.repository_size, raw.create_last_run, lp, lc, lsq⟩

/-- The Repository record (config.py:47-61). -/
structure Repository where
  spec : Str
  name : Str
  config : Str
  host : Str
  user : Str
  latest : Option Metrics
deriving DecidableEq

/-- The `if not name: name = spec` defaulting of Repository.new
(config.py:53-54): a None or empty name argument is replaced by the spec. -/
def nameOrSpec (spec : Str) : Option Str → Str
  | none => spec
  | some n => if n = [] then spec else n

/-- Repository.new (config.py:48-61): partition the spec on a tilde, then
the remainder on an at-sign; an empty config raises inform.Error; the three
segments are validated by a_name; empty host and user fall back to the
machine hostname hn and user un; latest starts unset. -/
def mkRepository (hn un : Str) (spec : Str) (name0 : Option Str) :
    Except PyExc Repository :=
  if (partitionChar '@' (partitionChar '~' spec).1).1 = [] then
    .error (.err "spec is missing Emborg config name.")
  else
    match a_name (partitionChar '@' (partitionChar '~' spec).1).1 with
    | .error e => .error e
    | .ok c =>
      match a_name (partitionChar '@' (partitionChar '~' spec).1).2 with
      | .error e => .error e
      | .ok h =>
        match a_name (partitionChar '~' spec).2 with
        | .error e => .error e
        | .ok u =>
          .ok { spec := spec, name := nameOrSpec spec name0, config := c,
                host := if h = [] then hn else h,
                user := if u = [] then un else u,
                latest := none }

/-- Repository.str (config.py:63-64): the full resolved identity string. -/
def repoStr (r : Repository) : Str :=
  r.config ++ '@' :: (r.host ++ '~' :: r.user)

/-- Python truthiness of the latest attribute (None or empty dict is falsy),
as tested by get_latest (config.py:100). -/
def metricsTruthy : Option Metrics → Bool
  | none => false
  | some m => if m = emptyMetrics then false else true

/-- get_latest (config.py:99-124).  The metrics-source collaborator (local
read or ssh) is a parameter; the Nat in the result counts how many times it
was consulted (0 when the cached latest value is reused).  On a fresh fetch
the repository's latest field is populated with the converted document. -/
def get_latest (fetch : Except PyExc RawDoc) (r : Repository) :
    Except PyExc (Metrics × Repository × Nat) :=
  if metricsTruthy r.latest then
    .ok (r.latest.getD emptyMetrics, r, 0)
  else
    match fetch with
    | .error e => .error e
    | .ok raw =>
        let d := parseLatest raw
        .ok (d, { r with latest := some d }, 1)

/-- Python dict lookup on an insertion-ordered association list. -/
def dictLookup {β : Type} : List (Str × β) → Str → Option β
  | [], _ => none
  | (k0, v0) :: rest, k => if k0 = k then some v0 else dictLookup rest k

/-- Python dict assignment d[k] = v: replace the value of an existing key in
place, otherwise append the new pair at the end. -/
def dictAssign {β : Type} : List (Str × β) → Str → β → List (Str × β)
  | [], k, v => [(k, v)]
  | (k0, v0) :: rest, k, v =>
      if k0 = k then (k0, v) :: rest else (k0, v0) :: dictAssign rest k v

/-- Python dict.update(d2): assign every pair of d2 into d1 in order. -/
def dictUpdate {β : Type} (d1 : List (Str × β)) (d2 : List (Str × β)) :
    List (Str × β) :=
  d2.foldl (fun d kv => dictAssign d kv.1 kv.2) d1

/-- The keys of an association-list dict, in order. -/
def dictKeys {β : Type} : List (Str × β) → List Str
  | [] => []
  | kv :: rest => kv.1 :: dictKeys rest

/-- The catalog of named repository groups (the repositories global of
config.py), mapping a group name to the list of Repository objects built for
it. -/
abbrev Catalog := List (Str × List Repository)

/-- The inner loop of the catalog-building code (config.py:252-257): each
spec of a group entry that names a previously defined group (and is not the
group's own name) contributes that group's repositories; every other spec is
parsed as an ad-hoc Repository with the group alias as its name.  repos0 is
the dict of groups defined so far; construction failures propagate. -/
def buildEntrySpecs (hn un : Str) (repos0 : Catalog) (name : Str)
    (alias0 : Option Str) (acc : List Repository) :
    List Str → Except PyExc (List Repository)
  | [] => .ok acc
  | sp :: rest =>
      match dictLookup repos0 sp with
      | some entry =>
          if sp = name then
            match mkRepository hn un sp alias0 with
            | .error e => .error e
            | .ok r => buildEntrySpecs hn un repos0 name alias0 (acc ++ [r]) rest
          else
            buildEntrySpecs hn un repos0 name alias0 (acc ++ entry) rest
      | none =>
          match mkRepository hn un sp alias0 with
          | .error e => .error e
          | .ok r => buildEntrySpecs hn un repos0 name alias0 (acc ++ [r]) rest

/-- One step of the catalog-building loop (config.py:248-259): a group with
specs gets the expansion of its spec list (with the group name as alias when
there is at most one spec); a group with an empty spec list is parsed as a
repository spec itself. -/
def buildGroup (hn un : Str) (repos : Catalog) (name : Str)
    (specs : List Str) : Except PyExc Catalog :=
  match specs with
  | [] =>
      match mkRepository hn un name none with
      | .error e => .error e
      | .ok r => .ok (dictAssign repos name [r])
  | _ :: _ =>
      match buildEntrySpecs hn un repos name
          (if specs.length ≤ 1 then some name else none) [] specs with
      | .error e => .error e
      | .ok entry => .ok (dictAssign repos name entry)

/-- Fold of buildGroup over the settings-file specifications in declaration
order (config.py:246-259). -/
def repositoriesOfAux (hn un : Str) (acc : Catalog) :
    List (Str × List Str) → Except PyExc Catalog
  | [] => .ok acc
  | (n, specs) :: rest =>
      match buildGroup hn un acc n specs with
      | .error e => .error e
      | .ok acc2 => repositoriesOfAux hn un acc2 rest

/-- The repositories global built from the validated specifications mapping
(config.py:246-259). -/
def repositoriesOf (hn un : Str) (specs : List (Str × List Str)) :
    Except PyExc Catalog :=
  repositoriesOfAux hn un [] specs

/-- The mapping returned by get_repos, plus the list of failures it reported
(name-tagged) instead of raising.  Reported errors model the e.report /
error(...) calls of config.py:147-150. -/
abbrev RepoResults := List (Str × Repository) × List (Str × PyExc)

/-- The per-child loop of get_repos (config.py:141-151): fetch each child's
latest metrics; on success store the child under its full identity string;
an inform.Error or OSError is reported tagged with that identity and the
loop continues; any other exception (such as voluptuous.Invalid) propagates,
matching the except clauses of the Python code. -/
def processChildren (fetch : Repository → Except PyExc RawDoc)
    (results : List (Str × Repository)) (errs : List (Str × PyExc)) :
    List Repository → Except PyExc RepoResults
  | [] => .ok (results, errs)
  | child :: rest =>
      let nm := repoStr child
      match get_latest (fetch child) child with
      | .ok out => processChildren fetch (dictAssign results nm out.2.1) errs rest
      | .error e =>
          match e with
          | .invalid m => .error (.invalid m)
          | _ => processChildren fetch results (errs ++ [(nm, e)]) rest

/-- The body of get_repos (config.py:131-151) after default substitution: an
empty effective request fails (there is no default repository); a request
found in the catalog yields that group's children; otherwise the request is
parsed as an ad-hoc spec (construction failures propagate uncaught, since
the Python try only guards the catalog lookup). -/
def get_repos_resolved (hn un : Str) (catalog : Catalog)
    (fetch : Repository → Except PyExc RawDoc) (sp : Str) :
    Except PyExc RepoResults :=
  if sp = [] then .error (.err "there is no default repository.")
  else
    match dictLookup catalog sp with
    | some children => processChildren fetch [] [] children
    | none =>
        match mkRepository hn un sp none with
        | .error e => .error e
        | .ok r => processChildren fetch [] [] [r]

/-- get_repos (config.py:127-151): an empty request is first replaced by the
configured default repository. -/
def get_repos (hn un : Str) (default0 : Option Str) (catalog : Catalog)
    (fetch : Repository → Except PyExc RawDoc) (spec : Str) :
    Except PyExc RepoResults :=
  get_repos_resolved hn un catalog fetch
    (if spec = [] then default0.getD [] else spec)

/-- The request loop of collect_repos (main.py:65-69): each request's
results are merged into the accumulated dict with dict.update; reported
failures accumulate; an exception raised by get_repos aborts the remaining
requests.  The record-size branch is file I/O and is outside the model. -/
def collectAux (hn un : Str) (default0 : Option Str) (catalog : Catalog)
    (fetch : Repository → Except PyExc RawDoc)
    (acc : List (Str × Repository)) (errs : List (Str × PyExc)) :
    List Str → Except PyExc RepoResults
  | [] => .ok (acc, errs)
  | req :: rest =>
      match get_repos hn un default0 catalog fetch req with
      | .error e => .error e
      | .ok out =>
          collectAux hn un default0 catalog fetch
            (dictUpdate acc out.1) (errs ++ out.2) rest

/-- collect_repos (main.py:65-69) without the record branch. -/
def collect_repos (hn un : Str) (default0 : Option Str) (catalog : Catalog)
    (fetch : Repository → Except PyExc RawDoc) (requests : List Str) :
    Except PyExc RepoResults :=
  collectAux hn un default0 catalog fetch [] [] requests

/-- True when an Except is a success. -/
def exOk {α : Type} : Except PyExc α → Bool
  | .ok _ => true
  | .error _ => false

/-- Decidable equality for Except results, used to state concrete facts. -/
instance {ε α : Type} [DecidableEq ε] [DecidableEq α] :
    DecidableEq (Except ε α) := fun a b =>
  match a, b with
  | .ok x, .ok y =>
      if h : x = y then .isTrue (by rw [h]) else
        .isFalse (by intro hc; cases hc; exact h rfl)
  | .error x, .error y =>
      if h : x = y then .isTrue (by rw [h]) else
        .isFalse (by intro hc; cases hc; exact h rfl)
  | .ok _, .error _ => .isFalse (by intro hc; cases hc)
  | .error _, .ok _ => .isFalse (by intro hc; cases hc)

/-- Split a character list at every occurrence of the separator (the pieces
between separators, in order); the counterpart of Python splitlines used to
state facts about the rendered tree. -/
def splitListOn (c : Char) : Str → List Str
  | [] => [[]]
  | x :: xs =>
      if x = c then [] :: splitListOn c xs
      else
        match splitListOn c xs with
        | [] => [[x]]
        | l :: ls => (x :: l) :: ls

/-- The lines of a rendered tree. -/
def renderLines (s : String) : List Str := splitListOn '\n' s.toList

/-- Non-breaking space used by gen_connectors (trees.py:28). -/
def nbsp : Char := Char.ofNat 0xA0

/-- Horizontal rule used by gen_connectors (trees.py:29). -/
def hline : Char := Char.ofNat 0x2500

/-- Vertical lead seed (trees.py:33). -/
def vline : Char := Char.ofNat 0x2502

/-- Branch connector seed (trees.py:31). -/
def branchC : Char := Char.ofNat 0x251C

/-- Corner connector seed (trees.py:32). -/
def cornerC : Char := Char.ofNat 0x2514

/-- The connector glyph strings produced by gen_connectors (trees.py:27-42). -/
structure Connectors where
  item : String
  last_item : String
  lead : String
  last_lead : String

/-- The extend closure of gen_connectors (trees.py:38-40): pad a seed glyph
with fill characters to the requested width, plus a trailing space when the
width exceeds one. -/
def extendSeed (width : Nat) (seed : Char) : String :=
  let fill := if seed = nbsp || seed = vline then nbsp else hline
  let pad := if width > 1 then String.mk [nbsp] else ""
  String.mk (seed :: List.replicate (width - 2) fill) ++ pad

/-- gen_connectors (trees.py:27-42). -/
def gen_connectors (width : Nat) : Connectors :=
  { item := extendSeed width branchC
    last_item := extendSeed width cornerC
    lead := extendSeed width vline
    last_lead := extendSeed width nbsp }

/-- The module-level connectors value (trees.py:44). -/
def connectors : Connectors := gen_connectors 4

/-- inform.conjoin with string arguments: join with sep, except that the last
two items are joined with conj. -/
def conjoin (sep conj : String) : List String → String
  | [] => ""
  | [x] => x
  | [x, y] => x ++ conj ++ y
  | x :: rest => x ++ sep ++ conjoin sep conj rest

mutual

/-- The data hierarchy consumed by the tree renderer: nested string-keyed
mappings whose leaves are scalar strings or lists of strings. -/
inductive DTree where
  | leaf : String → DTree
  | strs : List String → DTree
  | node : DEntries → DTree

/-- Ordered entries of a mapping level of a DTree. -/
inductive DEntries where
  | nil : DEntries
  | cons : String → DTree → DEntries → DEntries

end

/-- Python truthiness of a tree value, as tested by `_tree(value, ...) if
value else None` (trees.py:70). -/
def dtreeTruthy : DTree → Bool
  | .leaf s => s ≠ ""
  | .strs xs => xs ≠ []
  | .node es => match es with | .nil => false | .cons _ _ _ => true

/-- The generator-filter join of trees.py:77: drop None entries and empty
strings, join the rest with newlines. -/
def joinKept (xs : List (Option String)) : String :=
  String.intercalate "\n" ((xs.filterMap id).filter (fun s => s ≠ ""))

/-- The non-mapping branch of _tree (trees.py:79-94): scalars are promoted to
one-element lists; at top level the items are joined with newlines, deeper
levels are prefixed with branch connectors and a corner connector before the
last item. -/
def renderScalars (xs : List String) (top : Bool) (leader : String) : String :=
  if top then conjoin "\n" "\n" xs
  else
    let joiner := "\n" ++ leader ++ connectors.item
    let terminator := "\n" ++ leader ++ connectors.last_item
    let connector := if xs.length > 1 then connectors.item else connectors.last_item
    leader ++ connector ++ conjoin joiner terminator xs

mutual

/-- _tree (trees.py:49-94) on a tree value. -/
def renderTree (suffix : String) (top : Bool) (leader : String) :
    DTree → String
  | .leaf s => renderScalars [s] top leader
  | .strs xs => renderScalars xs top leader
  | .node es => joinKept (renderEntries suffix top leader es)

/-- The mapping branch of _tree (trees.py:51-77): walk the entries in order,
prefixing each key with the branch connector and propagating the lead to its
descendants, except the last entry, which gets the corner connector and a
blank lead; at top level no connectors are emitted.  Mapping or list values
recurse (skipped when falsy), scalar values are squeezed onto the key line. -/
def renderEntries (suffix : String) (top : Bool) (leader : String) :
    DEntries → List (Option String)
  | .nil => []
  | .cons k v rest =>
      let isLast : Bool := match rest with | .nil => true | .cons _ _ _ => false
      let kls := if top then "" else
        if isLast then connectors.last_item else connectors.item
      let ils := if top then "" else
        if isLast then connectors.last_lead else connectors.lead
      (match v with
       | .leaf s => [some (leader ++ kls ++ k ++ ": " ++ s)]
       | v2 =>
          [some (leader ++ kls ++ k ++ suffix),
           if dtreeTruthy v2 then
             some (renderTree suffix false (leader ++ ils) v2)
           else none]) ++ renderEntries suffix top leader rest

end

/-- tree (trees.py:46-47). -/
def tree (data : DTree) (key_suffix : String) : String :=
  renderTree key_suffix true "" data

/-- The outcome of print_report (main.py:181-195): which report printer runs,
and with which compact format override.  The function dispatches on the
requested style and falls back to treating anything unrecognized as a compact
format specification; it has no failure outcome. -/
inductive ReportAction where
  | compact : Option String → ReportAction
  | table : ReportAction
  | treeStyle : ReportAction
  | nestedtextStyle : ReportAction
  | jsonStyle : ReportAction
deriving DecidableEq

/-- print_report (main.py:181-195).  report_style is the report_style
setting; style is the --style command-line value (none when absent, and a
falsy empty string also falls back to the setting, mirroring `if not
style`). -/
def print_report (report_style : Option String) (style : Option String) :
    ReportAction :=
  let s := match style with
    | none => report_style.getD "compact"
    | some t => if t = "" then report_style.getD "compact" else t
  if s = "compact" then .compact none
  else if s = "table" then .table
  else if s = "tree" then .treeStyle
  else if s = "nt" || s = "nestedtext" then .nestedtextStyle
  else if s = "json" then .jsonStyle
  else .compact (some s)

/-- A nonempty value that a_name accepts: the identifier-with-dashes name
grammar of config.py:174-183. -/
abbrev goodName (s : Str) : Prop :=
  s ≠ [] ∧ isIdentifier (s.map cleanChar) = true

/-- Concrete machine hostname used in the closed examples. -/
def hnC : Str := sl "lo"

/-- Concrete user name used in the closed examples. -/
def unC : Str := sl "me"

/-- A metrics document carrying every recognized key. -/
def docFull : RawDoc := ⟨some 1000, some 5, some 3, some 4⟩

/-- A metrics document carrying none of the recognized keys. -/
def emptyRaw : RawDoc := ⟨none, none, none, none⟩

/-- A metrics source that always answers with the full document. -/
def fetchOkC : Repository → Except PyExc RawDoc := fun _ => .ok docFull

/-- A metrics source whose every read fails with an inform.Error. -/
def fetchFailC : Repository → Except PyExc RawDoc :=
  fun _ => .error (.err "boom")

/-- Placeholder repository used only as the default of Option.getD in the
closed examples (every use is behind a lookup that succeeds). -/
def fallbackRepo : Repository := ⟨[], [], [], [], [], none⟩

/-- Catalog built from a settings file whose single group names itself. -/
def catC1 : Catalog :=
  (repositoriesOf hnC unC [(sl "g", [sl "g"])]).toOption.getD []

/-- Specifications of a settings file with one single-spec group. -/
def specsC3 : List (Str × List Str) := [(sl "g1", [sl "cfg@hh~uu"])]

/-- Catalog built from specsC3. -/
def catC3 : Catalog := (repositoriesOf hnC unC specsC3).toOption.getD []

/-- The results of resolving the group name g1 against catC3. -/
def p1C3 : RepoResults :=
  (get_repos hnC unC none catC3 fetchOkC (sl "g1")).toOption.getD ([], [])

/-- The results of resolving the same identity as an ad-hoc spec. -/
def p2C3 : RepoResults :=
  (get_repos hnC unC none catC3 fetchOkC (sl "cfg@hh~uu")).toOption.getD ([], [])

/-- A freshly constructed repository for the fetch-idempotence examples. -/
def rC6 : Repository :=
  (mkRepository hnC unC (sl "backup@box1") none).toOption.getD fallbackRepo

/-- The catalog entry list of the group declared first in the reversed-order
example (a repository built by parsing the later group's name). -/
def catC2 : Catalog :=
  (repositoriesOf hnC unC [(sl "bb", [sl "cfg@hh~uu"])]).toOption.getD []

/-- The repositories of group bb in catC2. -/
def entryC2 : List Repository := (dictLookup catC2 (sl "bb")).getD []

/-- The repository built for the self-referential group example. -/
def rC1 : Repository :=
  (mkRepository hnC unC (sl "g") (some (sl "g"))).toOption.getD fallbackRepo

/-- The display hierarchy of the renderer example: one host, one user, one
config with a scalar size. -/
def ex7 : DTree :=
  .node (.cons "h1"
    (.node (.cons "u1"
      (.node (.cons "c1" (.leaf "10 B") .nil)) .nil)) .nil)

/-- The mapping produced by resolving group g1 against catC3 (used to state
the get_repos invariant at a concrete input). -/
def resC10 : List (Str × Repository) := p1C3.1

/-- The repository stored under the full identity key in resC10. -/
def rStoredC10 : Repository :=
  (dictLookup resC10 (sl "cfg@hh~uu")).getD fallbackRepo

/-- a_name never rewrites its argument: success returns the input. -/
theorem a_name_ok_eq {s t : Str} (h : a_name s = .ok t) : t = s := by
  unfold a_name at h
  split at h
  · cases h; rfl
  · split at h
    · cases h; rfl
    · cases h

/-- a_name accepts every goodName value. -/
theorem a_name_good {s : Str} (h : goodName s) : a_name s = .ok s := by
  unfold a_name
  rw [if_neg h.1, if_pos h.2]

/-- Every character of an identifier passes the continuation test or heads
the identifier; a character failing both tests cannot occur. -/
theorem ident_not_mem {l : Str} (h : isIdentifier l = true) {c : Char}
    (h1 : isIdentStart c = false) (h2 : isIdentCont c = false) : c ∉ l := by
  intro hm
  cases l with
  | nil => simp [isIdentifier] at h
  | cons x xs =>
    rw [isIdentifier, Bool.and_eq_true, List.all_eq_true] at h
    rcases List.mem_cons.mp hm with rfl | hmem
    · rw [h.1] at h1; cases h1
    · have := h.2 c hmem
      rw [this] at h2; cases h2

/-- A goodName contains no character that is neither an identifier start nor
an identifier continuation and is unaffected by the dash replacement. -/
theorem goodName_not_mem {s : Str} (h : goodName s) {c : Char}
    (hclean : cleanChar c = c) (h1 : isIdentStart c = false)
    (h2 : isIdentCont c = false) : c ∉ s := by
  intro hm
  exact ident_not_mem h.2 h1 h2 (List.mem_map.mpr ⟨c, hm, hclean⟩)

/-- partition of a list not containing the separator returns the whole list
and an empty remainder. -/
theorem partitionChar_not_mem {c : Char} {l : Str} (h : c ∉ l) :
    partitionChar c l = (l, []) := by
  induction l with
  | nil => rfl
  | cons x xs ih =>
    have hx : ¬(x = c) := fun e => h (e ▸ List.mem_cons_self x xs)
    have h2 : c ∉ xs := fun hm => h (List.mem_cons_of_mem _ hm)
    simp [partitionChar, hx, ih h2]

/-- partition splits at the first occurrence of the separator. -/
theorem partitionChar_append {c : Char} {xs ys : Str} (h : c ∉ xs) :
    partitionChar c (xs ++ c :: ys) = (xs, ys) := by
  induction xs with
  | nil => simp [partitionChar]
  | cons x rest ih =>
    have hx : ¬(x = c) := fun e => h (e ▸ List.mem_cons_self x rest)
    have h2 : c ∉ rest := fun hm => h (List.mem_cons_of_mem _ hm)
    simp [partitionChar, hx, ih h2]

/-- Lookup after Python dict assignment: the assigned key answers the new
value, every other key is unchanged. -/
theorem dictLookup_assign {β : Type} (d : List (Str × β)) (k : Str) (v : β)
    (k2 : Str) :
    dictLookup (dictAssign d k v) k2 =
      if k = k2 then some v else dictLookup d k2 := by
  induction d with
  | nil => simp [dictAssign, dictLookup, eq_comm]
  | cons kv rest ih =>
    obtain ⟨k0, v0⟩ := kv
    by_cases h0 : k0 = k
    · subst h0
      by_cases h2 : k0 = k2
      · subst h2; simp [dictAssign, dictLookup]
      · simp [dictAssign, dictLookup, h2]
    · by_cases h2 : k0 = k2
      · subst h2
        have : ¬(k = k0) := fun e => h0 e.symm
        simp [dictAssign, dictLookup, h0, this]
      · simp [dictAssign, dictLookup, h0, h2, ih]

/-- Assignment only touches the assigned key: the key list is unchanged when
the key is present, extended at the end otherwise. -/
theorem dictKeys_assign {β : Type} (d : List (Str × β)) (k : Str) (v : β) :
    dictKeys (dictAssign d k v) =
      if k ∈ dictKeys d then dictKeys d else dictKeys d ++ [k] := by
  induction d with
  | nil => simp [dictAssign, dictKeys]
  | cons kv rest ih =>
    obtain ⟨k0, v0⟩ := kv
    by_cases h0 : k0 = k
    · subst h0; simp [dictAssign, dictKeys]
    · have : ¬(k = k0) := fun e => h0 e.symm
      by_cases hm : k ∈ dictKeys rest
      · simp [dictAssign, dictKeys, h0, hm, this, ih]
      · simp [dictAssign, dictKeys, h0, hm, this, ih]

/-- Assignment preserves distinctness of keys. -/
theorem nodup_dictKeys_assign {β : Type} {d : List (Str × β)}
    (h : (dictKeys d).Nodup) (k : Str) (v : β) :
    (dictKeys (dictAssign d k v)).Nodup := by
  rw [dictKeys_assign]
  by_cases hm : k ∈ dictKeys d
  · simp [hm, h]
  · simp [hm, h, List.nodup_append]

/-- Membership in the result of an assignment. -/
theorem mem_dictAssign {β : Type} {d : List (Str × β)} {k : Str} {v : β}
    {kv : Str × β} (h : kv ∈ dictAssign d k v) : kv ∈ d ∨ kv = (k, v) := by
  induction d with
  | nil => simp [dictAssign] at h; right; exact h
  | cons kv0 rest ih =>
    obtain ⟨k0, v0⟩ := kv0
    by_cases h0 : k0 = k
    · subst h0
      simp [dictAssign] at h
      rcases h with rfl | hm
      · right; rfl
      · left; exact List.mem_cons_of_mem _ hm
    · simp [dictAssign, h0] at h
      rcases h with rfl | hm
      · left; exact List.mem_cons_self _ _
      · rcases ih hm with hi | hi
        · left; exact List.mem_cons_of_mem _ hi
        · right; exact hi

/-- A key outside the key list answers none. -/
theorem dictLookup_eq_none {β : Type} {d : List (Str × β)} {k : Str}
    (h : k ∉ dictKeys d) : dictLookup d k = none := by
  induction d with
  | nil => rfl
  | cons kv rest ih =>
    obtain ⟨k0, v0⟩ := kv
    have h0 : ¬(k0 = k) := by
      intro e; exact h (by simp [dictKeys, e])
    have h2 : k ∉ dictKeys rest := fun hm => h (by simp [dictKeys] at hm ⊢; right; exact hm)
    simp [dictLookup, h0, ih h2]

/-- A successful lookup exhibits a member. -/
theorem dictLookup_mem {β : Type} {d : List (Str × β)} {k : Str} {v : β}
    (h : dictLookup d k = some v) : (k, v) ∈ d := by
  induction d with
  | nil => cases h
  | cons kv rest ih =>
    obtain ⟨k0, v0⟩ := kv
    by_cases h0 : k0 = k
    · subst h0
      simp [dictLookup] at h
      subst h; exact List.mem_cons_self _ _
    · simp [dictLookup, h0] at h
      exact List.mem_cons_of_mem _ (ih h)

/-- Lookup through dict.update: a key present in the update source answers
its value there, all other keys fall back to the original dict. -/
theorem dictLookup_update {β : Type} (d1 d2 : List (Str × β))
    (h : (dictKeys d2).Nodup) (k : Str) :
    dictLookup (dictUpdate d1 d2) k =
      (dictLookup d2 k).orElse (fun _ => dictLookup d1 k) := by
  induction d2 generalizing d1 with
  | nil => simp [dictUpdate, dictLookup, Option.orElse]
  | cons kv rest ih =>
    obtain ⟨k0, v0⟩ := kv
    have hrest : (dictKeys rest).Nodup := (List.nodup_cons.mp h).2
    have hnot : k0 ∉ dictKeys rest := (List.nodup_cons.mp h).1
    have step : dictUpdate d1 ((k0, v0) :: rest) =
        dictUpdate (dictAssign d1 k0 v0) rest := by
      simp [dictUpdate]
    rw [step, ih _ hrest]
    by_cases h0 : k0 = k
    · subst h0
      rw [dictLookup_eq_none hnot]
      simp [dictLookup, dictLookup_assign, Option.orElse]
    · simp [dictLookup, h0, dictLookup_assign, Option.orElse]

/-- Rebuilding a dict with distinct keys by updating the empty dict does not
change lookups. -/
theorem dictLookup_update_nil {β : Type} {d : List (Str × β)}
    (h : (dictKeys d).Nodup) (k : Str) :
    dictLookup (dictUpdate [] d) k = dictLookup d k := by
  rw [dictLookup_update [] d h k]
  cases hl : dictLookup d k <;> simp [Option.orElse, dictLookup]

/-- dict.update preserves distinctness of the accumulating dict's keys. -/
theorem nodup_dictUpdate {β : Type} {d1 : List (Str × β)}
    (h : (dictKeys d1).Nodup) (d2 : List (Str × β)) :
    (dictKeys (dictUpdate d1 d2)).Nodup := by
  induction d2 generalizing d1 with
  | nil => exact h
  | cons kv rest ih =>
    obtain ⟨k0, v0⟩ := kv
    have step : dictUpdate d1 ((k0, v0) :: rest) =
        dictUpdate (dictAssign d1 k0 v0) rest := by
      simp [dictUpdate]
    rw [step]
    exact ih (nodup_dictKeys_assign h k0 v0)

/-- The three identity fields of a constructed Repository are nonempty
(given nonempty machine defaults), and its metrics start unset. -/
theorem mkRepository_fields {hn un sp : Str} {nm : Option Str}
    {r : Repository} (hhn : hn ≠ []) (hun : un ≠ [])
    (h : mkRepository hn un sp nm = .ok r) :
    r.config ≠ [] ∧ r.host ≠ [] ∧ r.user ≠ [] ∧ r.latest = none := by
  unfold mkRepository at h
  split at h
  · cases h
  · rename_i hcfg
    cases hc : a_name (partitionChar '@' (partitionChar '~' sp).1).1 with
    | error e => rw [hc] at h; cases h
    | ok c =>
      rw [hc] at h
      cases hh : a_name (partitionChar '@' (partitionChar '~' sp).1).2 with
      | error e => rw [hh] at h; cases h
      | ok hseg =>
        rw [hh] at h
        cases hu : a_name (partitionChar '~' sp).2 with
        | error e => rw [hu] at h; cases h
        | ok useg =>
          rw [hu] at h
          cases h
          refine ⟨?_, ?_, ?_, rfl⟩
          · simpa [a_name_ok_eq hc] using hcfg
          · by_cases he : hseg = []
            · simp [he, hhn]
            · simp [he]
          · by_cases he : useg = []
            · simp [he, hun]
            · simp [he]

/-- Identity fields of a Repository are nonempty. -/
def fieldsOk (r : Repository) : Prop :=
  r.config ≠ [] ∧ r.host ≠ [] ∧ r.user ≠ []

/-- Every repository of every group of a catalog has nonempty identity
fields. -/
def CatOk (cat : Catalog) : Prop :=
  ∀ kv ∈ cat, ∀ r ∈ kv.2, fieldsOk r

/-- The entry produced by the inner catalog loop only contains repositories
with nonempty identity fields, provided the previously built groups and the
accumulator do. -/
theorem buildEntrySpecs_fieldsOk {hn un : Str} {repos0 : Catalog}
    {name : Str} {alias0 : Option Str} {acc : List Repository}
    {specs : List Str} {entry : List Repository}
    (hhn : hn ≠ []) (hun : un ≠ [])
    (hcat : CatOk repos0) (hacc : ∀ r ∈ acc, fieldsOk r)
    (h : buildEntrySpecs hn un repos0 name alias0 acc specs = .ok entry) :
    ∀ r ∈ entry, fieldsOk r := by
  induction specs generalizing acc with
  | nil =>
    unfold buildEntrySpecs at h
    cases h
    exact hacc
  | cons sp rest ih =>
    unfold buildEntrySpecs at h
    split at h
    · rename_i e hl
      split at h
      · split at h
        · exact absurd h (by simp)
        · rename_i r2 hm
          refine ih ?_ h
          intro r hr
          rcases List.mem_append.mp hr with h1 | h2
          · exact hacc r h1
          · rcases List.mem_singleton.mp h2 with rfl
            have hf := mkRepository_fields hhn hun hm
            exact ⟨hf.1, hf.2.1, hf.2.2.1⟩
      · refine ih ?_ h
        intro r hr
        rcases List.mem_append.mp hr with h1 | h2
        · exact hacc r h1
        · exact hcat _ (dictLookup_mem hl) r h2
    · split at h
      · exact absurd h (by simp)
      · rename_i r2 hm
        refine ih ?_ h
        intro r hr
        rcases List.mem_append.mp hr with h1 | h2
        · exact hacc r h1
        · rcases List.mem_singleton.mp h2 with rfl
          have hf := mkRepository_fields hhn hun hm
          exact ⟨hf.1, hf.2.1, hf.2.2.1⟩

/-- Assignment preserves the catalog field invariant when the new entry
satisfies it. -/
theorem CatOk_assign {cat : Catalog} {name : Str} {entry : List Repository}
    (hcat : CatOk cat) (hentry : ∀ r ∈ entry, fieldsOk r) :
    CatOk (dictAssign cat name entry) := by
  intro kv hkv r hr
  rcases mem_dictAssign hkv with hm | rfl
  · exact hcat kv hm r hr
  · exact hentry r hr

/-- One step of the catalog-building loop preserves the field invariant. -/
theorem buildGroup_CatOk {hn un : Str} {repos : Catalog} {name : Str}
    {specs : List Str} {repos2 : Catalog}
    (hhn : hn ≠ []) (hun : un ≠ [])
    (hcat : CatOk repos) (h : buildGroup hn un repos name specs = .ok repos2) :
    CatOk repos2 := by
  unfold buildGroup at h
  split at h
  · split at h
    · exact absurd h (by simp)
    · rename_i r hm
      cases h
      refine CatOk_assign hcat ?_
      intro r2 hr2
      rcases List.mem_singleton.mp hr2 with rfl
      have hf := mkRepository_fields hhn hun hm
      exact ⟨hf.1, hf.2.1, hf.2.2.1⟩
  · split at h
    · exact absurd h (by simp)
    · rename_i entry hb
      cases h
      exact CatOk_assign hcat
        (buildEntrySpecs_fieldsOk hhn hun hcat (by intro r hr; cases hr) hb)

/-- The built catalog satisfies the field invariant. -/
theorem repositoriesOfAux_CatOk {hn un : Str} {acc : Catalog}
    {specs : List (Str × List Str)} {cat : Catalog}
    (hhn : hn ≠ []) (hun : un ≠ [])
    (hacc : CatOk acc) (h : repositoriesOfAux hn un acc specs = .ok cat) :
    CatOk cat := by
  induction specs generalizing acc with
  | nil =>
    unfold repositoriesOfAux at h
    cases h
    exact hacc
  | cons nv rest ih =>
    unfold repositoriesOfAux at h
    cases hb : buildGroup hn un acc nv.1 nv.2 with
    | error e => rw [hb] at h; cases h
    | ok acc2 =>
      rw [hb] at h
      exact ih (buildGroup_CatOk hhn hun hacc hb) h

/-- The repositories global built from the settings file satisfies the
field invariant. -/
theorem repositoriesOf_CatOk {hn un : Str} {specs : List (Str × List Str)}
    {cat : Catalog} (hhn : hn ≠ []) (hun : un ≠ [])
    (h : repositoriesOf hn un specs = .ok cat) : CatOk cat := by
  refine repositoriesOfAux_CatOk hhn hun ?_ h
  intro kv hkv
  cases hkv

/-- A successful fetch leaves the identity fields untouched and the metrics
record populated. -/
theorem get_latest_fields {fetch : Except PyExc RawDoc} {r : Repository}
    {d : Metrics} {r2 : Repository} {n : Nat}
    (h : get_latest fetch r = .ok (d, r2, n)) :
    r2.config = r.config ∧ r2.host = r.host ∧ r2.user = r.user ∧
    r2.latest.isSome = true := by
  unfold get_latest at h
  split at h
  · rename_i ht
    cases h
    refine ⟨rfl, rfl, rfl, ?_⟩
    cases hl : r.latest with
    | none => rw [hl] at ht; simp [metricsTruthy] at ht
    | some m => simp [hl]
  · cases fetch with
    | error e => cases h
    | ok raw =>
      simp only at h
      cases h
      exact ⟨rfl, rfl, rfl, rfl⟩

/-- Identity string is preserved by a successful fetch. -/
theorem get_latest_repoStr {fetch : Except PyExc RawDoc} {r : Repository}
    {d : Metrics} {r2 : Repository} {n : Nat}
    (h : get_latest fetch r = .ok (d, r2, n)) : repoStr r2 = repoStr r := by
  have hf := get_latest_fields h
  unfold repoStr
  rw [hf.1, hf.2.1, hf.2.2.1]

/-- Invariant of the mapping built by get_repos: every entry is keyed by the
full identity string of the stored repository, whose identity fields are
nonempty and whose metrics record is populated. -/
def ResOk (res : List (Str × Repository)) : Prop :=
  ∀ kv ∈ res, kv.1 = repoStr kv.2 ∧ fieldsOk kv.2 ∧ kv.2.latest.isSome = true

/-- The child loop of get_repos preserves the results invariant. -/
theorem processChildren_ResOk {fetch : Repository → Except PyExc RawDoc}
    {children : List Repository} {res : List (Str × Repository)}
    {errs : List (Str × PyExc)} {out : RepoResults}
    (hres : ResOk res) (hch : ∀ c ∈ children, fieldsOk c)
    (h : processChildren fetch res errs children = .ok out) : ResOk out.1 := by
  induction children generalizing res errs with
  | nil =>
    unfold processChildren at h
    cases h
    exact hres
  | cons c rest ih =>
    unfold processChildren at h
    split at h
    · rename_i t hg
      refine ih ?_ (fun c2 hc2 => hch c2 (List.mem_cons_of_mem _ hc2)) h
      intro kv hkv
      rcases mem_dictAssign hkv with hm | rfl
      · exact hres kv hm
      · have hf := get_latest_fields hg
        have hc := hch c (List.mem_cons_self _ _)
        refine ⟨(get_latest_repoStr hg).symm, ?_, hf.2.2.2⟩
        exact ⟨hf.1 ▸ hc.1, hf.2.1 ▸ hc.2.1, hf.2.2.1 ▸ hc.2.2⟩
    · rename_i e hg
      split at h
      · exact absurd h (by simp)
      · exact ih hres (fun c2 hc2 => hch c2 (List.mem_cons_of_mem _ hc2)) h

/-- The child loop of get_repos preserves distinctness of the result keys. -/
theorem processChildren_nodup {fetch : Repository → Except PyExc RawDoc}
    {children : List Repository} {res : List (Str × Repository)}
    {errs : List (Str × PyExc)} {out : RepoResults}
    (h0 : (dictKeys res).Nodup)
    (h : processChildren fetch res errs children = .ok out) :
    (dictKeys out.1).Nodup := by
  induction children generalizing res errs with
  | nil =>
    unfold processChildren at h
    cases h
    exact h0
  | cons c rest ih =>
    unfold processChildren at h
    split at h
    · exact ih (nodup_dictKeys_assign h0 _ _) h
    · split at h
      · exact absurd h (by simp)
      · exact ih h0 h

/-- The mapping returned by the body of get_repos has distinct keys. -/
theorem get_repos_resolved_nodup {hn un : Str} {cat : Catalog}
    {fetch : Repository → Except PyExc RawDoc} {sp : Str} {out : RepoResults}
    (h : get_repos_resolved hn un cat fetch sp = .ok out) :
    (dictKeys out.1).Nodup := by
  unfold get_repos_resolved at h
  split at h
  · exact absurd h (by simp)
  · split at h
    · exact processChildren_nodup (by simp [dictKeys]) h
    · split at h
      · exact absurd h (by simp)
      · exact processChildren_nodup (by simp [dictKeys]) h

/-- The mapping returned by get_repos has distinct keys. -/
theorem get_repos_nodup {hn un : Str} {d0 : Option Str} {cat : Catalog}
    {fetch : Repository → Except PyExc RawDoc} {sp : Str} {out : RepoResults}
    (h : get_repos hn un d0 cat fetch sp = .ok out) :
    (dictKeys out.1).Nodup := by
  unfold get_repos at h
  exact get_repos_resolved_nodup h

/-- Claim C7, counterexample: the render of the one-host one-user one-config
hierarchy has three lines, and its first line is not the claimed top-level
line with a colon, so the render is not the claimed two-line diagram. -/
theorem c7_counterexample :
    (renderLines (tree ex7 "")).length = 3 ∧
    (renderLines (tree ex7 "")).head? ≠ some (sl "h1:") := by
  decide

/-- Claim C7 (corrected): tree of the empty mapping renders empty; the
render of the nested hierarchy is exactly three lines: the top-level key h1
with no connector and no colon, then the corner-connected child u1, then the
corner-connected grand-child leaf line for c1 with no stray trailing
connector. -/
theorem c7_amended :
    tree (.node .nil) "" = "" ∧
    tree ex7 "" =
      "h1" ++ "\n" ++ connectors.last_item ++ "u1" ++ "\n" ++
      connectors.last_lead ++ connectors.last_item ++ "c1: 10 B" := by
  constructor
  · rfl
  · decide

/-- Claim C9, counterexample: print_report on the unrecognized style fancy
dispatches to the compact printer with fancy as the format string; it does
not fail (the code has no UnknownStyle error at all). -/
theorem c9_counterexample :
    print_report none (some "fancy") = ReportAction.compact (some "fancy") ∧
    "fancy" ∉ ["compact", "table", "tree", "nt", "nestedtext", "json"] := by
  constructor
  · rfl
  · decide

/-- Claim C9 (corrected): a requested style outside the recognized set is
not an error: print_report treats it as a compact format specification and
produces a compact report with it. -/
theorem c9_amended (rs : Option String) (s : String) (h0 : s ≠ "")
    (h1 : s ∉ ["compact", "table", "tree", "nt", "nestedtext", "json"]) :
    print_report rs (some s) = .compact (some s) := by
  simp only [List.mem_cons, List.not_mem_nil, or_false, not_or] at h1
  obtain ⟨h2, h3, h4, h5, h6, h7⟩ := h1
  simp [print_report, h0, h2, h3, h4, h5, h6, h7]

/-- Claim C9, witness: the amended theorem applied to the style fancy. -/
theorem c9_witness : print_report none (some "fancy") = .compact (some "fancy") :=
  c9_amended none "fancy" (by decide) (by decide)

/-- Claim C4, counterexample: a spec with an empty config segment raises an
inform.Error instead of mapping the empty segment to an absent value. -/
theorem c4_counterexample :
    mkRepository hnC unC (sl "@hh~uu") none =
      .error (.err "spec is missing Emborg config name.") := by
  decide

/-- Claim C4 (corrected): parsing splits on the tilde first (right side the
user), then the remainder on the at-sign (right side the host, left the
config); empty host and user segments map to the machine defaults, but an
empty config segment raises an error rather than mapping to an absent
value. -/
theorem c4_amended (hn un spec : Str) :
    ((partitionChar '@' (partitionChar '~' spec).1).1 = [] →
      mkRepository hn un spec none =
        .error (.err "spec is missing Emborg config name.")) ∧
    (∀ r, mkRepository hn un spec none = .ok r →
      r.config = (partitionChar '@' (partitionChar '~' spec).1).1 ∧
      r.host = (if (partitionChar '@' (partitionChar '~' spec).1).2 = []
                then hn else (partitionChar '@' (partitionChar '~' spec).1).2) ∧
      r.user = (if (partitionChar '~' spec).2 = [] then un
                else (partitionChar '~' spec).2)) := by
  constructor
  · intro h
    unfold mkRepository
    rw [if_pos h]
  · intro r hr
    unfold mkRepository at hr
    split at hr
    · exact absurd hr (by simp)
    · split at hr
      · exact absurd hr (by simp)
      · rename_i c hc
        split at hr
        · exact absurd hr (by simp)
        · rename_i hseg hh
          split at hr
          · exact absurd hr (by simp)
          · rename_i useg hu
            cases hr
            refine ⟨a_name_ok_eq hc, ?_, ?_⟩
            · rw [a_name_ok_eq hh]
            · rw [a_name_ok_eq hu]

/-- Claim C4, witness: the amended theorem applied to a spec with an empty
config segment. -/
theorem c4_witness :
    mkRepository hnC unC (sl "@hh") none =
      .error (.err "spec is missing Emborg config name.") :=
  (c4_amended hnC unC (sl "@hh")).1 (by decide)

/-- Claim C5, counterexample: parsing the valid spec cfg (host and user
omitted) and re-serializing yields cfg at the machine host and user, not the
original string, so the round-trip fails when a segment is omitted. -/
theorem c5_counterexample :
    (mkRepository hnC unC (sl "cfg") none).toOption.map repoStr =
      some (sl "cfg@lo~me") ∧ sl "cfg@lo~me" ≠ sl "cfg" := by
  decide

/-- Claim C5 (corrected): the parse and re-serialize round-trip holds
exactly when all three segments are present (and are legal names); a spec
omitting host or user re-serializes with the machine defaults filled in, and
a spec omitting config errors. -/
theorem c5_amended (hn un c h u : Str) (hc : goodName c) (hh : goodName h)
    (hu : goodName u) :
    ∃ r, mkRepository hn un (c ++ '@' :: (h ++ '~' :: u)) none = .ok r ∧
      repoStr r = c ++ '@' :: (h ++ '~' :: u) := by
  have hclean : cleanChar '~' = '~' := by decide
  have hclean2 : cleanChar '@' = '@' := by decide
  have hts : isIdentStart '~' = false := by decide
  have htc : isIdentCont '~' = false := by decide
  have has : isIdentStart '@' = false := by decide
  have hac : isIdentCont '@' = false := by decide
  have hntc : ('~' : Char) ∉ c := goodName_not_mem hc hclean hts htc
  have hnth : ('~' : Char) ∉ h := goodName_not_mem hh hclean hts htc
  have hnac : ('@' : Char) ∉ c := goodName_not_mem hc hclean2 has hac
  have hpu : partitionChar '~' (c ++ '@' :: (h ++ '~' :: u)) =
      (c ++ '@' :: h, u) := by
    have heq1 : c ++ '@' :: (h ++ '~' :: u) = (c ++ '@' :: h) ++ '~' :: u := by
      simp
    rw [heq1]
    apply partitionChar_append
    intro hm
    rcases List.mem_append.mp hm with h1 | h2
    · exact hntc h1
    · rcases List.mem_cons.mp h2 with e | h3
      · exact absurd e (by decide)
      · exact hnth h3
  have hch : partitionChar '@' (c ++ '@' :: h) = (c, h) :=
    partitionChar_append hnac
  refine ⟨{ spec := c ++ '@' :: (h ++ '~' :: u),
            name := c ++ '@' :: (h ++ '~' :: u),
            config := c, host := h, user := u, latest := none }, ?_, ?_⟩
  · unfold mkRepository
    simp only [hpu, hch]
    rw [if_neg hc.1, a_name_good hc, a_name_good hh, a_name_good hu]
    simp [nameOrSpec, hh.1, hu.1]
  · unfold repoStr
    rfl

/-- Claim C5, witness: the amended round-trip theorem applied to a concrete
three-segment spec. -/
theorem c5_witness :
    ∃ r, mkRepository hnC unC (sl "cfg" ++ '@' :: (sl "hh" ++ '~' :: sl "uu"))
        none = .ok r ∧
      repoStr r = sl "cfg" ++ '@' :: (sl "hh" ++ '~' :: sl "uu") :=
  c5_amended hnC unC (sl "cfg") (sl "hh") (sl "uu")
    (by decide) (by decide) (by decide)

/-- Claim C1, counterexample: building the catalog whose single group g
names itself succeeds (no error of any kind is raised: the error type has no
cycle variant because the code has none), the self-reference becomes an
ad-hoc repository with config g, and resolving g afterwards also
succeeds. -/
theorem c1_counterexample :
    exOk (repositoriesOf hnC unC [(sl "g", [sl "g"])]) = true ∧
    (repositoriesOf hnC unC [(sl "g", [sl "g"])]).toOption.map
        (fun cat => cat.map (fun kv => (kv.1, kv.2.map Repository.config)))
      = some [(sl "g", [sl "g"])] ∧
    exOk (get_repos hnC unC none catC1 fetchOkC (sl "g")) = true := by
  decide

/-- Claim C1 (corrected): a group whose entry names the group itself never
fails with a cycle error: the single-pass catalog builder treats the
self-reference as an ad-hoc repository spec (parsing the group name), and
building always terminates. -/
theorem c1_amended (hn un : Str) (repos : Catalog) (g : Str) (r : Repository)
    (h : mkRepository hn un g (some g) = .ok r) :
    buildGroup hn un repos g [g] = .ok (dictAssign repos g [r]) := by
  unfold buildGroup buildEntrySpecs
  cases hl : dictLookup repos g with
  | some entry => simp [hl, h, buildEntrySpecs]
  | none => simp [hl, h, buildEntrySpecs]

/-- Claim C1, witness: the amended theorem applied to the concrete
self-referential group. -/
theorem c1_witness :
    buildGroup hnC unC [] (sl "g") [sl "g"] =
      .ok (dictAssign [] (sl "g") [rC1]) :=
  c1_amended hnC unC [] (sl "g") rC1 (by decide)

/-- Claim C2, counterexample: with group aa declared before group bb, aa's
reference to bb is not expanded to bb's concrete repository: it is parsed as
the ad-hoc spec bb at the machine defaults, so transitive references are not
honored regardless of declaration order. -/
theorem c2_counterexample :
    (repositoriesOf hnC unC
        [(sl "aa", [sl "bb"]), (sl "bb", [sl "cfg@hh~uu"])]).toOption.map
        (fun cat => cat.map (fun kv => (kv.1, kv.2.map repoStr)))
      = some [(sl "aa", [sl "bb@lo~me"]), (sl "bb", [sl "cfg@hh~uu"])] ∧
    sl "bb@lo~me" ≠ sl "cfg@hh~uu" := by
  decide

/-- Claim C2 (corrected): a group entry naming another group expands to that
group's repositories exactly when the referenced group was declared earlier
(already present in the dict being built); a reference to a group declared
later is parsed as an ad-hoc repository spec instead. -/
theorem c2_amended (hn un : Str) (repos : Catalog) (a b : Str)
    (entry : List Repository) (hne : a ≠ b)
    (hb : dictLookup repos b = some entry) :
    buildGroup hn un repos a [b] = .ok (dictAssign repos a entry) := by
  unfold buildGroup buildEntrySpecs
  have hba : ¬(b = a) := fun e => hne e.symm
  simp [hb, hba, buildEntrySpecs]

/-- Claim C2, witness: the amended theorem applied to a catalog in which bb
is already defined when aa references it. -/
theorem c2_witness :
    buildGroup hnC unC catC2 (sl "aa") [sl "bb"] =
      .ok (dictAssign catC2 (sl "aa") entryC2) :=
  c2_amended hnC unC catC2 (sl "aa") (sl "bb") entryC2 (by decide) (by decide)

/-- Claim C6, counterexample: when the metrics document contains none of the
recognized keys, the first fetch stores an empty record, and the second
fetch consults the metrics-source collaborator again (invocation count 1,
not 0), contradicting that the second fetch never re-invokes the
collaborator. -/
theorem c6_counterexample :
    get_latest (.ok emptyRaw) rC6 =
      .ok (emptyMetrics, { rC6 with latest := some emptyMetrics }, 1) ∧
    get_latest (.ok emptyRaw) { rC6 with latest := some emptyMetrics } =
      .ok (emptyMetrics, { rC6 with latest := some emptyMetrics }, 1) := by
  decide

/-- Claim C6 (corrected): after a first successful fetch, a second fetch
returns identical data and the identical repository state; it reuses the
cached record without consulting the collaborator whenever the first fetch
produced a non-empty metrics record, but re-consults the collaborator (one
more invocation) when the record was empty, because the cache test uses
dict truthiness. -/
theorem c6_amended (fetch : Except PyExc RawDoc) (r : Repository)
    (d1 : Metrics) (r1 : Repository) (n1 : Nat) (h0 : r.latest = none)
    (h : get_latest fetch r = .ok (d1, r1, n1)) :
    get_latest fetch r1 = .ok (d1, r1, if d1 = emptyMetrics then 1 else 0) := by
  unfold get_latest at h
  rw [h0] at h
  simp only [metricsTruthy] at h
  cases fetch with
  | error e => simp at h
  | ok raw =>
    simp only [Bool.false_eq_true, if_false, Except.ok.injEq,
      Prod.mk.injEq] at h
    obtain ⟨hd, hr, hn⟩ := h
    subst hd
    subst hr
    by_cases he : parseLatest raw = emptyMetrics
    · simp [get_latest, metricsTruthy, he]
    · simp [get_latest, metricsTruthy, he]

/-- Claim C6, witness: the amended theorem applied to a repository that was
fetched once from a document carrying all recognized keys. -/
theorem c6_witness :
    get_latest (.ok docFull) { rC6 with latest := some (parseLatest docFull) } =
      .ok (parseLatest docFull,
           { rC6 with latest := some (parseLatest docFull) },
           if parseLatest docFull = emptyMetrics then 1 else 0) :=
  c6_amended (.ok docFull) rC6 (parseLatest docFull)
    { rC6 with latest := some (parseLatest docFull) } 1 (by decide) (by decide)

/-- Claim C3, counterexample: resolving group g1 and then the equivalent
ad-hoc spec in one invocation keeps the identity once, but the entry stored
under the full identity key is the one from the second request (its name is
the full spec, not the group alias g1 that the first request produced), so
the first occurrence does not win. -/
theorem c3_counterexample :
    ((collect_repos hnC unC none catC3 fetchOkC
        [sl "g1", sl "cfg@hh~uu"]).toOption.map
        (fun p => p.1.map (fun kv => (kv.1, kv.2.name))))
      = some [(sl "cfg@hh~uu", sl "cfg@hh~uu")] ∧
    ((get_repos hnC unC none catC3 fetchOkC (sl "g1")).toOption.map
        (fun p => p.1.map (fun kv => kv.2.name)))
      = some [sl "g1"] ∧
    sl "g1" ≠ sl "cfg@hh~uu" := by
  decide

/-- Claim C3 (corrected): merging the results of two requests keeps each
concrete identity exactly once (the merged keys are distinct), keyed by the
full identity string, but for an identity produced by both requests the
entry kept is the one from the LAST request, because dict.update overwrites
earlier entries. -/
theorem c3_amended (hn un : Str) (d0 : Option Str) (cat : Catalog)
    (fetch : Repository → Except PyExc RawDoc) (r1 r2 : Str)
    (p1 p2 : RepoResults)
    (h1 : get_repos hn un d0 cat fetch r1 = .ok p1)
    (h2 : get_repos hn un d0 cat fetch r2 = .ok p2) :
    collect_repos hn un d0 cat fetch [r1, r2] =
      .ok (dictUpdate (dictUpdate [] p1.1) p2.1, p1.2 ++ p2.2) ∧
    (∀ k, dictLookup (dictUpdate (dictUpdate [] p1.1) p2.1) k =
      (dictLookup p2.1 k).orElse (fun _ => dictLookup p1.1 k)) ∧
    (dictKeys (dictUpdate (dictUpdate [] p1.1) p2.1)).Nodup := by
  refine ⟨?_, ?_, ?_⟩
  · simp [collect_repos, collectAux, h1, h2]
  · intro k
    rw [dictLookup_update (dictUpdate [] p1.1) p2.1 (get_repos_nodup h2) k]
    simp only [dictLookup_update_nil (get_repos_nodup h1) k]
  · exact nodup_dictUpdate
      (nodup_dictUpdate (by simp [dictKeys]) p1.1) p2.1

/-- Claim C3, witness: the amended theorem applied to the two concrete
requests that both expand to the identity cfg at hh under uu. -/
theorem c3_witness :
    collect_repos hnC unC none catC3 fetchOkC [sl "g1", sl "cfg@hh~uu"] =
      .ok (dictUpdate (dictUpdate [] p1C3.1) p2C3.1, p1C3.2 ++ p2C3.2) :=
  (c3_amended hnC unC none catC3 fetchOkC (sl "g1") (sl "cfg@hh~uu") p1C3 p2C3
    (by decide) (by decide)).1

/-- Claim C8, counterexample: a batch whose first request has illegal
characters (not a catalog group, and ad-hoc parsing raises
voluptuous.Invalid) aborts with that exception before the second request is
resolved, even though the second request alone would succeed; the sibling
request is therefore not resolved, contradicting the claim. -/
theorem c8_counterexample :
    collect_repos hnC unC none [] fetchOkC [sl "bad!", sl "cfg@hh~uu"] =
      .error (.invalid "bad!: expected a name") ∧
    exOk (get_repos hnC unC none [] fetchOkC (sl "cfg@hh~uu")) = true := by
  decide

/-- Claim C8 (corrected): fetch failures (inform.Error or OSError) for one
repository are reported individually, tagged with that repository's full
identity string, and the loop continues with the remaining repositories;
but a failure to resolve a request itself (for example an unknown group
name whose text fails ad-hoc spec parsing) raises out of get_repos and
aborts the remaining requests of the batch. -/
theorem c8_amended (hn un : Str) (d0 : Option Str) (cat : Catalog)
    (fetch : Repository → Except PyExc RawDoc) :
    (∀ r1 r2 e, get_repos hn un d0 cat fetch r1 = .error e →
      collect_repos hn un d0 cat fetch [r1, r2] = .error e) ∧
    (∀ res errs c rest ex, c.latest = none → fetch c = .error ex →
      (∀ m, ex ≠ PyExc.invalid m) →
      processChildren fetch res errs (c :: rest) =
        processChildren fetch res (errs ++ [(repoStr c, ex)]) rest) := by
  constructor
  · intro r1 r2 e h
    simp [collect_repos, collectAux, h]
  · intro res errs c rest ex h0 hf hni
    have hg : get_latest (fetch c) c = .error ex := by
      unfold get_latest
      rw [h0, hf]
      simp [metricsTruthy]
    have hstep : processChildren fetch res errs (c :: rest) =
        match get_latest (fetch c) c with
        | .ok out =>
            processChildren fetch (dictAssign res (repoStr c) out.2.1) errs rest
        | .error e =>
            match e with
            | .invalid m => .error (.invalid m)
            | _ => processChildren fetch res (errs ++ [(repoStr c, e)]) rest := rfl
    rw [hstep, hg]
    cases ex with
    | err m => rfl
    | invalid m => exact absurd rfl (hni m)
    | oserr m => rfl

/-- Claim C8, witness: both parts of the amended theorem at concrete inputs:
the invalid first request aborts the pair, and a failing fetch is recorded
name-tagged while the loop continues. -/
theorem c8_witness :
    collect_repos hnC unC none [] fetchOkC [sl "bad!!", sl "ok"] =
      .error (.invalid "bad!!: expected a name") ∧
    processChildren fetchFailC [] [] [rC6] =
      processChildren fetchFailC [] [(repoStr rC6, .err "boom")] [] :=
  ⟨(c8_amended hnC unC none [] fetchOkC).1 (sl "bad!!") (sl "ok")
      (.invalid "bad!!: expected a name") (by decide),
   (c8_amended hnC unC none [] fetchFailC).2 [] [] rC6 [] (.err "boom")
      (by decide) (by decide) (fun m h => nomatch h)⟩

/-- Claim C10 (confirmed): whenever get_repos returns normally against a
catalog built from the settings file (and nonempty machine defaults), every
entry of the returned mapping is keyed by the full identity string of the
repository stored under it, that repository's three identity fields are
nonempty, and its metrics record is populated; children whose fetch failed
with a reported error class are omitted, not stored. -/
theorem c10_invariant (hn un : Str) (specs : List (Str × List Str))
    (cat : Catalog) (d0 : Option Str)
    (fetch : Repository → Except PyExc RawDoc) (req : Str)
    (res : List (Str × Repository)) (errs : List (Str × PyExc))
    (hhn : hn ≠ []) (hun : un ≠ [])
    (hcat : repositoriesOf hn un specs = .ok cat)
    (h : get_repos hn un d0 cat fetch req = .ok (res, errs)) :
    ∀ k r, (k, r) ∈ res →
      k = repoStr r ∧ r.config ≠ [] ∧ r.host ≠ [] ∧ r.user ≠ [] ∧
      r.latest.isSome = true := by
  have hco : CatOk cat := repositoriesOf_CatOk hhn hun hcat
  unfold get_repos get_repos_resolved at h
  generalize (if req = [] then d0.getD [] else req) = sp at h
  split at h
  · exact absurd h (by simp)
  · split at h
    · rename_i children hl
      have hres : ResOk res :=
        processChildren_ResOk (by intro kv hkv; cases hkv)
          (fun c hc => hco _ (dictLookup_mem hl) c hc) h
      intro k r hkr
      have hx := hres (k, r) hkr
      exact ⟨hx.1, hx.2.1.1, hx.2.1.2.1, hx.2.1.2.2, hx.2.2⟩
    · split at h
      · exact absurd h (by simp)
      · rename_i r0 hm
        have hf := mkRepository_fields hhn hun hm
        have hres : ResOk res :=
          processChildren_ResOk (by intro kv hkv; cases hkv)
            (by
              intro c hc
              rcases List.mem_singleton.mp hc with rfl
              exact ⟨hf.1, hf.2.1, hf.2.2.1⟩) h
        intro k r hkr
        have hx := hres (k, r) hkr
        exact ⟨hx.1, hx.2.1.1, hx.2.1.2.1, hx.2.1.2.2, hx.2.2⟩

/-- Claim C10, witness: the invariant theorem applied to the concrete
catalog and the stored entry of the resolved group g1. -/
theorem c10_witness :
    sl "cfg@hh~uu" = repoStr rStoredC10 ∧ rStoredC10.config ≠ [] ∧
    rStoredC10.host ≠ [] ∧ rStoredC10.user ≠ [] ∧
    rStoredC10.latest.isSome = true :=
  c10_invariant hnC unC specsC3 catC3 none fetchOkC (sl "g1")
    resC10 [] (by decide) (by decide) (by decide) (by decide)
    (sl "cfg@hh~uu") rStoredC10 (by decide)

end BorgSpace
